import Mathlib

/-
Verification of the timeline construction and orchestration layer of the
sat-bundleadjust repository (src/bundle_adjust/loader.py and
src/bundle_adjust/ba_timeseries.py).

Conventions of the embedding:
  * datetimes are integer milliseconds; the source compares absolute minute
    differences (floats) with each other and with a 30-minute margin, and
    dividing by the positive constant 60000 leaves every such comparison
    unchanged, so distances are kept as exact integer milliseconds and the
    margin is 30 * 60000;
  * the id string of a timeline entry (strftime of the representative
    datetime, second resolution) is injective on representatives, which are
    at least 30 minutes apart, so the representative timestamp itself is
    used as the id;
  * file paths are plain strings, directories are joined with a slash;
  * file contents that this layer only passes through (rpc coefficients,
    projection matrices) are abstracted; file names and the orchestration
    state are modelled exactly.
-/

-- ===================== string utilities (loader.py) =====================

/-- Models os.path.basename: the characters after the last slash. -/
def basenameChars (l : List Char) : List Char :=
  (l.reverse.takeWhile (fun c => c != '/')).reverse

/-- Models the stem part of os.path.splitext: a basename without its final
dot-extension. Filenames handled by this code base never start with a dot. -/
def stemChars (l : List Char) : List Char :=
  if l.contains '.' then ((l.reverse.dropWhile (fun c => c != '.')).drop 1).reverse else l

/-- Models the extension part of os.path.splitext. -/
def extChars (l : List Char) : List Char :=
  if l.contains '.' then '.' :: (l.reverse.takeWhile (fun c => c != '.')).reverse else []

/-- Models loader.get_id: basename of a path without its extension. -/
def get_id (fname : String) : String :=
  String.mk (stemChars (basenameChars fname.toList))

/-- Models loader.add_suffix_to_fname: insert a suffix between the stem and the
extension of the final path component. The source performs a textual replace of
the basename inside the path, which is the same thing whenever the basename
occurs exactly once in the path, as in all uses here. -/
def add_suffix_to_fname (src_fname suffix : String) : String :=
  let l := src_fname.toList
  let base := basenameChars l
  let dir := l.take (l.length - base.length)
  String.mk (dir ++ stemChars base ++ suffix.toList ++ extChars base)

/-- Models loader.load_rpcs_from_dir line 451: the rpc basename looked up for one
image filename, from the suffix argument (default value RPC_adj) and the
extension argument. -/
def load_rpc_basename (fname suffix extension : String) : String :=
  get_id (add_suffix_to_fname fname suffix) ++ "." ++ extension

/-- Models ba_timeseries.Scene.load_scene lines 233-234: the filename under which
the initial rpc of an image is saved (rpcs_init directory, extension rpc). -/
def saved_init_rpc_fname (dst_dir fname : String) : String :=
  dst_dir ++ "/rpcs_init/" ++ get_id fname ++ ".rpc"

/-- Models ba_timeseries.Scene.load_data_from_dates lines 322-324, non-adjusted
branch: the filename looked up when the initial rpcs are loaded back from the
rpcs_init directory; the suffix of load_rpcs_from_dir is left at its default
value RPC_adj and the extension passed is rpc. -/
def loaded_init_rpc_fname (dst_dir fname : String) : String :=
  dst_dir ++ "/rpcs_init/" ++ load_rpc_basename fname "RPC_adj" "rpc"

-- ===================== DateClusterer (group_files_by_date) =====================

/-- One acquisition-date cluster of the timeline: the dict entry built by
group_files_by_date (both copies, loader.py lines 235-289 and ba_timeseries.py
lines 62-116). image_weights is reserved for the optimization core and stays
empty in this layer. -/
structure TimelineEntry where
  datetime : ℤ
  id : ℤ
  fnames : List String
  n_images : ℕ
  adjusted : Bool
  image_weights : List ℤ
  deriving Repr, DecidableEq, Inhabited

/-- Models dt_diff_in_mins, scaled: the source computes abs minute differences and
only ever compares them with each other and with the 30-minute margin, so the
absolute difference is kept in exact integer milliseconds (division by the
positive constant 60000 preserves every comparison). -/
def dt_diff_in_mins (d1 d2 : ℤ) : ℤ := |d1 - d2|

/-- The 30-minute margin of group_files_by_date, in milliseconds. -/
def margin : ℤ := 30 * 60000

def argminAux (best : ℤ) (bestIdx cur : ℕ) : List ℤ → ℕ
  | [] => bestIdx
  | x :: xs => if x < best then argminAux x cur (cur + 1) xs else argminAux best bestIdx (cur + 1) xs

/-- Models np.argmin: index of the first minimum of a nonempty list (0 on []). -/
def argminIdx : List ℤ → ℕ
  | [] => 0
  | x :: xs => argminAux x 0 1 xs

/-- One cluster being built by group_files_by_date: its representative datetime
(the entry appended to dates_already_seen) and its members in arrival order
(the index list stored in the dict d). -/
structure DateCluster where
  rep : ℤ
  members : List (ℤ × String)
  deriving Repr, DecidableEq

def appendToCluster : List DateCluster → ℕ → (ℤ × String) → List DateCluster
  | [], _, _ => []
  | c :: cs, 0, im => { c with members := c.members ++ [im] } :: cs
  | c :: cs, n + 1, im => c :: appendToCluster cs n im

/-- The loop body of group_files_by_date: an image joins the cluster of the
closest already seen representative when that distance is strictly below the
margin, and otherwise starts a new cluster, becoming its representative. -/
def groupStep (acc : List DateCluster) (im : ℤ × String) : List DateCluster :=
  let diffs := acc.map (fun c => dt_diff_in_mins c.rep im.1)
  if diffs.length > 0 then
    let min_pos := argminIdx diffs
    if diffs.getD min_pos 0 < margin then appendToCluster acc min_pos im
    else acc ++ [{ rep := im.1, members := [im] }]
  else acc ++ [{ rep := im.1, members := [im] }]

/-- Insertion into a time-sorted list. Together with sortByTime this models the
ascending np.argsort of the datetimes; the order among equal timestamps is not
relied upon anywhere (np.argsort is not stable either). -/
def insertByTime (x : ℤ × String) : List (ℤ × String) → List (ℤ × String)
  | [] => [x]
  | y :: ys => if x.1 ≤ y.1 then x :: y :: ys else y :: insertByTime x ys

def sortByTime : List (ℤ × String) → List (ℤ × String)
  | [] => []
  | x :: xs => insertByTime x (sortByTime xs)

/-- Models group_files_by_date (loader.py lines 235-289, identical copy in
ba_timeseries.py lines 62-116): sort the images by acquisition datetime, assign
each image greedily to the cluster of the nearest already seen representative
when the distance is strictly below the 30-minute margin and open a new cluster
otherwise, then emit one timeline entry per cluster in creation order. -/
def group_files_by_date (datetimes : List ℤ) (image_fnames : List String) : List TimelineEntry :=
  let sorted := sortByTime (datetimes.zip image_fnames)
  let clusters := sorted.foldl groupStep []
  clusters.map (fun c =>
    { datetime := (c.members.headD (c.rep, "")).1
      id := c.rep
      fnames := c.members.map (fun m => m.2)
      n_images := c.members.length
      adjusted := false
      image_weights := [] })

-- ===================== PairGenerator =====================

/-- n_images of timeline[t_idx]; the indices used by the source are always in
range (out of range yields 0). -/
def nImagesAt (timeline : List TimelineEntry) (t_idx : ℕ) : ℕ :=
  ((timeline.get? t_idx).map (fun e => e.n_images)).getD 0

/-- Models count_cams inside load_pairs_from_same_date_and_next_dates. -/
def count_cams (timeline : List TimelineEntry) (idxs : List ℕ) : ℕ :=
  (idxs.map (fun t => nImagesAt timeline t)).sum

/-- All pairs (i, j) with i in [a, a + n) and j in [b, b + m). -/
def pairsRange (a n b m : ℕ) : List (ℕ × ℕ) :=
  (List.range' a n).flatMap (fun i => (List.range' b m).map (fun j => (i, j)))

/-- Intra-date pairs: all (cam_i, cam_j) with s ≤ cam_i < cam_j < s + c. -/
def intraPairs (s c : ℕ) : List (ℕ × ℕ) :=
  (List.range' s c).flatMap (fun i =>
    (List.range' (i + 1) (s + c - (i + 1))).map (fun j => (i, j)))

/-- The main loop of load_pairs_from_same_date_and_next_dates, one step per
selected date; cams_so_far counts the images of the dates already passed and
np.arange(1, min(next_dates + 1, dates_left + 1)) becomes the range
[1, ..., min next_dates dates_left]. -/
def loadPairsGo (timeline : List TimelineEntry) (next_dates : ℕ) (intra_date : Bool) :
    ℕ → List ℕ → List (ℕ × ℕ)
  | _, [] => []
  | cams_so_far, t_idx :: rest =>
    let c := nImagesAt timeline t_idx
    let intra := if intra_date then intraPairs cams_so_far c else []
    let dates_left := rest.length
    let cross := (List.range' 1 (min next_dates dates_left)).flatMap (fun nd =>
      let next_t := rest.getD (nd - 1) 0
      let cams_next := nImagesAt timeline next_t
      let cams_until := cams_so_far + c + count_cams timeline (rest.take (nd - 1))
      pairsRange cams_so_far c cams_until cams_next)
    intra ++ cross ++ loadPairsGo timeline next_dates intra_date (cams_so_far + c) rest

/-- Models loader.load_pairs_from_same_date_and_next_dates lines 202-232:
intra-date pairs plus pairs between every image of each selected date and every
image of each of the next next_dates selected dates; image indices count
positions in the concatenation of the selected dates image lists. -/
def load_pairs_from_same_date_and_next_dates (timeline : List TimelineEntry)
    (timeline_indices : List ℕ) (next_dates : ℕ) (intra_date : Bool) : List (ℕ × ℕ) :=
  loadPairsGo timeline next_dates intra_date 0 timeline_indices

-- ===================== projection matrix / offset files =====================

/-- A crop offset record as held in memory (floats in the source). -/
structure CropOffsetQ where
  col0 : ℚ
  row0 : ℚ
  width : ℚ
  height : ℚ
  deriving Repr, DecidableEq, Inhabited

/-- The json record written by loader.save_projection_matrices for one camera:
the projection matrix rows and the integer crop offsets. -/
structure PinholeJsonDict where
  P : List (List ℚ)
  height : ℤ
  width : ℤ
  col_offset : ℤ
  row_offset : ℤ
  deriving Repr, DecidableEq

/-- Models the Python int() conversion on a float: truncation toward zero. -/
def pyInt (q : ℚ) : ℤ := if 0 ≤ q then ⌊q⌋ else ⌈q⌉

/-- Models loader.save_projection_matrices lines 459-476: the per-file records
written for a list of (projection matrix, crop offset) pairs; the json store is
abstracted positionally. -/
def save_projection_matrices (Ps : List (List (List ℚ))) (crop_offsets : List CropOffsetQ) :
    List PinholeJsonDict :=
  (Ps.zip crop_offsets).map (fun pr =>
    { P := pr.1
      height := pyInt pr.2.height
      width := pyInt pr.2.width
      col_offset := pyInt pr.2.col0
      row_offset := pyInt pr.2.row0 })

/-- Models loader.load_offsets_from_dir lines 493-511: rebuild the crop offset
records from the stored files; note that the source fills both col0 and row0
from the stored col_offset field. -/
def load_offsets_from_dir (ds : List PinholeJsonDict) : List CropOffsetQ :=
  ds.map (fun d =>
    { col0 := (d.col_offset : ℚ)
      row0 := (d.col_offset : ℚ)
      width := (d.width : ℚ)
      height := (d.height : ℚ) })

-- ===================== Scene orchestration (ba_timeseries.py) =====================

/-- External file contents read by the orchestration layer: the acquisition
datetime of an image file (get_acquisition_date). -/
structure Env where
  acqDate : String → ℤ

/-- The mutable attributes of a Scene object together with the parts of the
filesystem the orchestration layer inspects: the timeline, whether the
rpcs_adj directory of the bundle adjustment directory exists and the ids of
the rpc_adj files inside it, the files present under geotiff_dir, the bundle
adjustment input lists, and the configuration attributes read from the scene
config in Scene.__init__. -/
structure SceneState where
  timeline : List TimelineEntry
  adj_dir_exists : Bool
  disk_adj_ids : List String
  geotiff_files : List String
  n_adj : ℕ
  images_adj : List String
  images_new : List String
  fix_ref_cam : Bool
  n_dates : ℕ
  ba_method : String
  reset : Bool
  selected_timeline_indices : Option (List ℕ)
  dst_dir : String
  ba_dir_exists : Bool
  ft_predefined_pairs : List (ℕ × ℕ)
  deriving Repr, DecidableEq

/-- Models the inner loop of Scene.check_adjusted_dates lines 300-303: walk the
timeline with its index and set adjusted on every entry whose id matches the
given cluster id and whose index is strictly below t_idx; the boolean records
whether some entry was marked (the prev_adj_data_found assignment sits inside
the same conditional in the source). -/
def markTimeline (adj_id : ℤ) (t_idx : ℕ) : ℕ → List TimelineEntry → List TimelineEntry × Bool
  | _, [] => ([], false)
  | idx, e :: rest =>
    let r := markTimeline adj_id t_idx (idx + 1) rest
    if e.id = adj_id ∧ idx < t_idx then ({ e with adjusted := true } :: r.1, true)
    else (e :: r.1, r.2)

/-- Models the outer loop of Scene.check_adjusted_dates line 298: one
markTimeline pass per cluster of previously adjusted images. -/
def markAll (t_idx : ℕ) : List TimelineEntry → List TimelineEntry → List TimelineEntry × Bool
  | [], tl => (tl, false)
  | d :: ds, tl =>
    let r1 := markTimeline d.id t_idx 0 tl
    let r2 := markAll t_idx ds r1.1
    (r2.1, r1.2 || r2.2)

/-- Models Scene.check_adjusted_dates lines 286-308: when the rpcs_adj directory
exists, look up the geotiff of every adjusted rpc id (the source globs
geotiff_dir for the literal pattern adj_id + tif even though this repository
loads JP2 images), regroup the findings by date, and mark every timeline entry
with a matching cluster id and an index strictly below t_idx as adjusted. -/
def check_adjusted_dates (env : Env) (s : SceneState) (t_idx : ℕ) : SceneState × Bool :=
  if s.adj_dir_exists then
    let adj_fnames := s.disk_adj_ids.flatMap
      (fun adj_id => s.geotiff_files.filter (fun f => f == adj_id ++ ".tif"))
    let datetimes_adj := adj_fnames.map env.acqDate
    let timeline_adj := group_files_by_date datetimes_adj adj_fnames
    let r := markAll t_idx timeline_adj s.timeline
    ({ s with timeline := r.1 }, r.2)
  else (s, false)

/-- Timeline entry at an index (Python raises on an out of range index; the
source only indexes in range, where the default is never used). -/
def entryAt (tl : List TimelineEntry) (t_idx : ℕ) : TimelineEntry :=
  (tl.get? t_idx).getD default

/-- Models Scene.load_data_from_dates lines 310-333: collect the image filenames
of the given timeline indices and append them to the adjusted or the new image
list; the rpc file loaded next to each image is external file content and is
abstracted away, the image identities are what the orchestration invariants
are about. -/
def load_data_from_dates (s : SceneState) (timeline_indices : List ℕ) (adjusted : Bool) :
    SceneState :=
  let im_fnames := timeline_indices.flatMap (fun t => (entryAt s.timeline t).fnames)
  if adjusted then
    { s with n_adj := s.n_adj + im_fnames.length, images_adj := s.images_adj ++ im_fnames }
  else { s with images_new := s.images_new ++ im_fnames }

def natDist (a b : ℕ) : ℕ := ((a : ℤ) - (b : ℤ)).natAbs

/-- Stable insertion by index distance to t_idx; together with sortByDist this
models the stable Python sorted with key abs(x - t_idx) in
Scene.load_prev_adjusted_dates. -/
def insertByDist (t_idx x : ℕ) : List ℕ → List ℕ
  | [] => [x]
  | y :: ys =>
    if natDist x t_idx ≤ natDist y t_idx then x :: y :: ys else y :: insertByDist t_idx x ys

def sortByDist (t_idx : ℕ) : List ℕ → List ℕ
  | [] => []
  | x :: xs => insertByDist t_idx x (sortByDist t_idx xs)

/-- Models Scene.load_prev_adjusted_dates lines 335-347: run check_adjusted_dates
for the date at t_idx and, when previously adjusted data was found, load the
previous_dates timeline indices currently flagged adjusted that are closest to
t_idx by index distance as adjusted data. -/
def load_prev_adjusted_dates (env : Env) (s : SceneState) (t_idx previous_dates : ℕ) :
    SceneState :=
  let r := check_adjusted_dates env s t_idx
  if r.2 then
    let all_prev := (List.range r.1.timeline.length).filter
      (fun idx => (entryAt r.1.timeline idx).adjusted)
    let closest := sortByDist t_idx all_prev
    load_data_from_dates r.1 (closest.take previous_dates) true
  else r.1

/-- Models Scene.init_ba_input_data. -/
def init_ba_input_data (s : SceneState) : SceneState :=
  { s with n_adj := 0, images_adj := [], images_new := [] }

/-- Python min of a nonempty list (the fallback 0 on [] is never used). -/
def pyMin : List ℕ → ℕ
  | [] => 0
  | x :: xs => xs.foldl Nat.min x

/-- Models Scene.set_ba_input_data lines 354-369: reset the input lists, load
anchor data from previously adjusted dates when previous_dates is positive,
then load the new data to adjust. -/
def set_ba_input_data (env : Env) (s : SceneState) (t_indices : List ℕ)
    (previous_dates : ℕ) : SceneState :=
  let s0 := init_ba_input_data s
  let s1 := if 0 < previous_dates then
      load_prev_adjusted_dates env s0 (pyMin t_indices) previous_dates
    else s0
  load_data_from_dates s1 t_indices false

/-- The image list handed to the optimization core
(ba_data images = images_adj + images_new, line 368). -/
def ba_images (s : SceneState) : List String := s.images_adj ++ s.images_new

/-- One invocation of the optimization core as observed by this layer. -/
structure BACall where
  images_adj : List String
  images_new : List String
  fix_ref_cam : Bool
  deriving Repr, DecidableEq, Inhabited

/-- Modelled from the spec: the optimization core (BundleAdjustmentPipeline.run,
outside this subsystem) persists adjusted camera models for the new images into
the rpcs_adj directory of the output directory. -/
def bundle_adjust_persist (s : SceneState) : SceneState :=
  { s with adj_dir_exists := true,
           disk_adj_ids := s.disk_adj_ids ++ s.images_new.map get_id }

/-- Models one iteration of Scene.run_sequential_bundle_adjustment lines 420-426:
build the input data for the single date t_idx with n_dates anchor dates, update
the fix_ref_cam attribute in place (it stays true only when it was true and
this is the first iteration or n_dates is zero), then run the optimization. -/
def run_sequential_step (env : Env) (s : SceneState) (idx t_idx : ℕ) : SceneState × BACall :=
  let s1 := set_ba_input_data env s [t_idx] s.n_dates
  let frc := (idx == 0 && s1.fix_ref_cam) || (s1.n_dates == 0 && s1.fix_ref_cam)
  let s2 := { s1 with fix_ref_cam := frc }
  (bundle_adjust_persist s2,
   { images_adj := s2.images_adj, images_new := s2.images_new, fix_ref_cam := frc })

/-- The per-date loop of Scene.run_sequential_bundle_adjustment, returning the
final state and one BACall per selected date, in order. -/
def run_sequential_go (env : Env) : SceneState → ℕ → List ℕ → SceneState × List BACall
  | s, _, [] => (s, [])
  | s, idx, t_idx :: rest =>
    let r := run_sequential_step env s idx t_idx
    let r2 := run_sequential_go env r.1 (idx + 1) rest
    (r2.1, r.2 :: r2.2)

/-- Filesystem side effects and optimization calls of one orchestration run. -/
inductive RunEvent
  | deleteDir (path : String)
  | baCall (c : BACall)
  | fatalStop
  deriving Repr, DecidableEq

/-- Models Scene.reset_ba_params lines 403-408: delete dst_dir/ba_method when it
exists (with the rpcs_adj directory inside it) and clear every adjusted flag. -/
def reset_ba_params (s : SceneState) : SceneState × List RunEvent :=
  let ev := if s.ba_dir_exists then
      [RunEvent.deleteDir (s.dst_dir ++ "/" ++ s.ba_method)]
    else []
  ({ s with ba_dir_exists := false, adj_dir_exists := false, disk_adj_ids := [],
            timeline := s.timeline.map (fun e => { e with adjusted := false }) }, ev)

/-- Models Scene.is_ba_method_valid line 495 (defined in the source but never
called by it). -/
def is_ba_method_valid (ba_method : String) : Bool :=
  ["ba_global", "ba_sequential", "ba_bruteforce"].contains ba_method

/-- Models Scene.run_sequential_bundle_adjustment lines 410-453: clear the
predefined pairs and run the per-date loop. -/
def run_sequential_bundle_adjustment (env : Env) (s : SceneState) (sel : List ℕ) :
    SceneState × List BACall :=
  run_sequential_go env { s with ft_predefined_pairs := [] } 0 sel

/-- Models Scene.run_global_bundle_adjustment lines 455-475: restrict the pairs
via the pair generator with lookahead n_dates, then one optimization call over
all selected dates with zero anchor dates. -/
def run_global_bundle_adjustment (env : Env) (s : SceneState) (sel : List ℕ) :
    SceneState × List BACall :=
  let s0 := { s with ft_predefined_pairs :=
      load_pairs_from_same_date_and_next_dates s.timeline sel s.n_dates true }
  let s1 := set_ba_input_data env s0 sel 0
  (bundle_adjust_persist s1,
   [{ images_adj := s1.images_adj, images_new := s1.images_new, fix_ref_cam := s1.fix_ref_cam }])

/-- Models Scene.run_bruteforce_bundle_adjustment lines 477-493: no pair
restriction, one optimization call over all selected dates with zero anchor
dates. -/
def run_bruteforce_bundle_adjustment (env : Env) (s : SceneState) (sel : List ℕ) :
    SceneState × List BACall :=
  let s0 := { s with ft_predefined_pairs := [] }
  let s1 := set_ba_input_data env s0 sel 0
  (bundle_adjust_persist s1,
   [{ images_adj := s1.images_adj, images_new := s1.images_new, fix_ref_cam := s1.fix_ref_cam }])

/-- Models Scene.run_bundle_adjustment_for_RPC_refinement lines 532-566: default
the selected indices to the whole timeline, reset when the reset attribute is
set, then dispatch on ba_method; an unrecognised method name reaches the final
else branch and exits fatally (after the reset already ran). -/
def run_bundle_adjustment_for_RPC_refinement (env : Env) (s : SceneState) :
    SceneState × List RunEvent :=
  let sel := match s.selected_timeline_indices with
    | none => List.range s.timeline.length
    | some l => l
  let s0 := { s with selected_timeline_indices := some sel }
  let r0 := if s0.reset then reset_ba_params s0 else (s0, [])
  if r0.1.ba_method = "ba_sequential" then
    let r := run_sequential_bundle_adjustment env r0.1 sel
    (r.1, r0.2 ++ r.2.map RunEvent.baCall)
  else if r0.1.ba_method = "ba_global" then
    let r := run_global_bundle_adjustment env r0.1 sel
    (r.1, r0.2 ++ r.2.map RunEvent.baCall)
  else if r0.1.ba_method = "ba_bruteforce" then
    let r := run_bruteforce_bundle_adjustment env r0.1 sel
    (r.1, r0.2 ++ r.2.map RunEvent.baCall)
  else (r0.1, r0.2 ++ [RunEvent.fatalStop])

-- ===================== derived notions and concrete scenes =====================

/-- The per-entry data of a timeline that the orchestration never mutates: the
cluster id and the image filenames (check_adjusted_dates only flips the
adjusted flags). -/
def timelineShape (tl : List TimelineEntry) : List (ℤ × List String) :=
  tl.map (fun e => (e.id, e.fnames))

/-- The invariant of every cluster built by the grouping fold over a
time-sorted image list: the representative is the timestamp of one of the
members, and every member lies at most the margin after the representative. -/
def clusterSound (c : DateCluster) : Prop :=
  (∃ m ∈ c.members, m.1 = c.rep)
  ∧ ∀ m ∈ c.members, c.rep ≤ m.1 ∧ dt_diff_in_mins c.rep m.1 < margin

/-- A datetime oracle for scenes whose group structure does not depend on it. -/
def env0 : Env := { acqDate := fun _ => 0 }

/-- A two-date timeline (one image per date, one hour apart). -/
def tl4 : List TimelineEntry :=
  [{ datetime := 0, id := 0, fnames := ["a.JP2"], n_images := 1,
     adjusted := false, image_weights := [] },
   { datetime := 3600000, id := 3600000, fnames := ["b.JP2"], n_images := 1,
     adjusted := false, image_weights := [] }]

def env4 : Env :=
  { acqDate := fun f => if f == "a.tif" || f == "a.JP2" then 0 else 3600000 }

/-- A scene resuming a sequential run: date 0 is already adjusted on disk (its
rpc_adj file and its geotiff are present), reset is off, both dates are
selected. -/
def s4 : SceneState :=
  { timeline := tl4
    adj_dir_exists := true
    disk_adj_ids := ["a"]
    geotiff_files := ["a.JP2", "b.JP2", "a.tif"]
    n_adj := 0
    images_adj := []
    images_new := []
    fix_ref_cam := false
    n_dates := 1
    ba_method := "ba_sequential"
    reset := false
    selected_timeline_indices := some [0, 1]
    dst_dir := "out"
    ba_dir_exists := true
    ft_predefined_pairs := [] }

/-- A three-date timeline, one image per date, far more than 30 minutes apart. -/
def tl5 : List TimelineEntry :=
  [{ datetime := 0, id := 0, fnames := ["a.JP2"], n_images := 1,
     adjusted := false, image_weights := [] },
   { datetime := 10000000, id := 10000000, fnames := ["b.JP2"], n_images := 1,
     adjusted := false, image_weights := [] },
   { datetime := 20000000, id := 20000000, fnames := ["c.JP2"], n_images := 1,
     adjusted := false, image_weights := [] }]

def env5 : Env :=
  { acqDate := fun f =>
      if f == "b.tif" then 10000000 else if f == "c.tif" then 20000000 else 0 }

/-- A scene resuming with dates 0 and 1 adjusted on disk from an earlier run. -/
def s5 : SceneState :=
  { timeline := tl5
    adj_dir_exists := true
    disk_adj_ids := ["a", "b"]
    geotiff_files := ["a.tif", "b.tif", "c.tif"]
    n_adj := 0
    images_adj := []
    images_new := []
    fix_ref_cam := false
    n_dates := 1
    ba_method := "ba_sequential"
    reset := false
    selected_timeline_indices := some [2, 1]
    dst_dir := "out"
    ba_dir_exists := true
    ft_predefined_pairs := [] }

/-- A scene configured with an invalid strategy name, the reset flag on and an
existing bundle adjustment directory. -/
def s3c : SceneState :=
  { timeline := tl4
    adj_dir_exists := false
    disk_adj_ids := []
    geotiff_files := []
    n_adj := 0
    images_adj := []
    images_new := []
    fix_ref_cam := false
    n_dates := 1
    ba_method := "ba_typo"
    reset := true
    selected_timeline_indices := none
    dst_dir := "out"
    ba_dir_exists := true
    ft_predefined_pairs := [] }

/-- A three-date timeline with 2, 1 and 3 images. -/
def tl7 : List TimelineEntry :=
  [{ datetime := 0, id := 0, fnames := ["i0", "i1"], n_images := 2,
     adjusted := false, image_weights := [] },
   { datetime := 3600000, id := 3600000, fnames := ["i2"], n_images := 1,
     adjusted := false, image_weights := [] },
   { datetime := 7200000, id := 7200000, fnames := ["i3", "i4", "i5"], n_images := 3,
     adjusted := false, image_weights := [] }]

/-- The scene s4 with the fix-reference-camera flag configured true. -/
def s8 : SceneState :=
  { s4 with fix_ref_cam := true }

/-- A crop offset with distinct column and row offsets. -/
def off10 : CropOffsetQ := { col0 := 0, row0 := 1, width := 100, height := 50 }

-- ===================== helper lemmas =====================

theorem markTimeline_get?_of_le (a : ℤ) (t : ℕ) (tl : List TimelineEntry) :
    ∀ (n idx : ℕ), t ≤ n + idx →
      ((markTimeline a t n tl).1).get? idx = tl.get? idx := by
  induction tl with
  | nil => intro n idx h; rfl
  | cons e rest ih =>
    intro n idx h
    cases idx with
    | zero =>
      simp only [markTimeline]
      split
      · next hc => exact absurd hc.2 (by omega)
      · rfl
    | succ j =>
      simp only [markTimeline]
      split
      · simp only [List.get?_cons_succ]
        exact ih (n + 1) j (by omega)
      · simp only [List.get?_cons_succ]
        exact ih (n + 1) j (by omega)

theorem markAll_get?_of_le (t : ℕ) (ds : List TimelineEntry) :
    ∀ (tl : List TimelineEntry) (idx : ℕ), t ≤ idx →
      ((markAll t ds tl).1).get? idx = tl.get? idx := by
  induction ds with
  | nil => intro tl idx h; rfl
  | cons d ds ih =>
    intro tl idx h
    simp only [markAll]
    rw [ih _ idx h]
    exact markTimeline_get?_of_le d.id t tl 0 idx (by omega)

theorem check_timeline_get?_of_le (env : Env) (s : SceneState) (t idx : ℕ) (h : t ≤ idx) :
    ((check_adjusted_dates env s t).1).timeline.get? idx = s.timeline.get? idx := by
  simp only [check_adjusted_dates]
  split
  · exact markAll_get?_of_le t _ s.timeline idx h
  · rfl

theorem markTimeline_shape (a : ℤ) (t : ℕ) (tl : List TimelineEntry) :
    ∀ n : ℕ, timelineShape (markTimeline a t n tl).1 = timelineShape tl := by
  induction tl with
  | nil => intro n; rfl
  | cons e rest ih =>
    intro n
    simp only [markTimeline]
    split
    · simp only [timelineShape, List.map_cons] at ih ⊢
      rw [ih (n + 1)]
    · simp only [timelineShape, List.map_cons] at ih ⊢
      rw [ih (n + 1)]

theorem markAll_shape (t : ℕ) (ds : List TimelineEntry) :
    ∀ tl : List TimelineEntry, timelineShape (markAll t ds tl).1 = timelineShape tl := by
  induction ds with
  | nil => intro tl; rfl
  | cons d ds ih =>
    intro tl
    simp only [markAll]
    rw [ih _, markTimeline_shape d.id t tl 0]

theorem check_shape (env : Env) (s : SceneState) (t : ℕ) :
    timelineShape ((check_adjusted_dates env s t).1).timeline = timelineShape s.timeline := by
  simp only [check_adjusted_dates]
  split
  · exact markAll_shape t _ s.timeline
  · rfl

theorem check_images_new (env : Env) (s : SceneState) (t : ℕ) :
    ((check_adjusted_dates env s t).1).images_new = s.images_new := by
  simp only [check_adjusted_dates]
  split <;> rfl

theorem check_images_adj (env : Env) (s : SceneState) (t : ℕ) :
    ((check_adjusted_dates env s t).1).images_adj = s.images_adj := by
  simp only [check_adjusted_dates]
  split <;> rfl

theorem check_fix_ref_cam (env : Env) (s : SceneState) (t : ℕ) :
    ((check_adjusted_dates env s t).1).fix_ref_cam = s.fix_ref_cam := by
  simp only [check_adjusted_dates]
  split <;> rfl

theorem check_n_dates (env : Env) (s : SceneState) (t : ℕ) :
    ((check_adjusted_dates env s t).1).n_dates = s.n_dates := by
  simp only [check_adjusted_dates]
  split <;> rfl

theorem load_data_false_eq (s : SceneState) (ti : List ℕ) :
    load_data_from_dates s ti false =
      { s with images_new :=
          s.images_new ++ ti.flatMap (fun t => (entryAt s.timeline t).fnames) } := rfl

theorem load_data_true_eq (s : SceneState) (ti : List ℕ) :
    load_data_from_dates s ti true =
      { s with
        n_adj := s.n_adj + (ti.flatMap (fun t => (entryAt s.timeline t).fnames)).length
        images_adj := s.images_adj ++ ti.flatMap (fun t => (entryAt s.timeline t).fnames) } := rfl

theorem load_prev_images_new (env : Env) (s : SceneState) (t p : ℕ) :
    (load_prev_adjusted_dates env s t p).images_new = s.images_new := by
  simp only [load_prev_adjusted_dates]
  split
  · rw [load_data_true_eq]
    exact check_images_new env s t
  · exact check_images_new env s t

theorem load_prev_shape (env : Env) (s : SceneState) (t p : ℕ) :
    timelineShape (load_prev_adjusted_dates env s t p).timeline = timelineShape s.timeline := by
  simp only [load_prev_adjusted_dates]
  split
  · rw [load_data_true_eq]
    exact check_shape env s t
  · exact check_shape env s t

theorem load_prev_fix_ref_cam (env : Env) (s : SceneState) (t p : ℕ) :
    (load_prev_adjusted_dates env s t p).fix_ref_cam = s.fix_ref_cam := by
  simp only [load_prev_adjusted_dates]
  split
  · rw [load_data_true_eq]
    exact check_fix_ref_cam env s t
  · exact check_fix_ref_cam env s t

theorem load_prev_n_dates (env : Env) (s : SceneState) (t p : ℕ) :
    (load_prev_adjusted_dates env s t p).n_dates = s.n_dates := by
  simp only [load_prev_adjusted_dates]
  split
  · rw [load_data_true_eq]
    exact check_n_dates env s t
  · exact check_n_dates env s t

theorem entry_fnames_of_shape (tl1 tl2 : List TimelineEntry)
    (h : timelineShape tl1 = timelineShape tl2) (i : ℕ) :
    (entryAt tl1 i).fnames = (entryAt tl2 i).fnames := by
  have h1 : (tl1.get? i).map (fun e => (e.id, e.fnames))
      = (tl2.get? i).map (fun e => (e.id, e.fnames)) := by
    have h2 := congrArg (fun l => l.get? i) h
    simpa [timelineShape, List.get?_map] using h2
  unfold entryAt
  cases e1 : tl1.get? i <;> cases e2 : tl2.get? i <;> rw [e1, e2] at h1 <;> simp at h1 <;>
    simp [h1]

theorem fnames_map_of_shape (tl1 tl2 : List TimelineEntry)
    (h : timelineShape tl1 = timelineShape tl2) :
    tl1.map (fun e => e.fnames) = tl2.map (fun e => e.fnames) := by
  have h1 := congrArg (List.map (fun p : ℤ × List String => p.2)) h
  simpa [timelineShape, List.map_map, Function.comp] using h1

theorem length_of_shape (tl1 tl2 : List TimelineEntry)
    (h : timelineShape tl1 = timelineShape tl2) : tl1.length = tl2.length := by
  have h1 := congrArg List.length h
  simpa [timelineShape] using h1

theorem init_images_adj (s : SceneState) : (init_ba_input_data s).images_adj = [] := rfl

theorem init_images_new (s : SceneState) : (init_ba_input_data s).images_new = [] := rfl

theorem set_ba_images_new (env : Env) (s : SceneState) (ti : List ℕ) (p : ℕ) :
    (set_ba_input_data env s ti p).images_new
      = ti.flatMap (fun t => (entryAt s.timeline t).fnames) := by
  simp only [set_ba_input_data]
  split
  · rw [load_data_false_eq]
    rw [load_prev_images_new]
    have hsh : timelineShape
        (load_prev_adjusted_dates env (init_ba_input_data s) (pyMin ti) p).timeline
        = timelineShape s.timeline := load_prev_shape env (init_ba_input_data s) (pyMin ti) p
    have hfn : ∀ u, (entryAt
        (load_prev_adjusted_dates env (init_ba_input_data s) (pyMin ti) p).timeline u).fnames
        = (entryAt s.timeline u).fnames := fun u => entry_fnames_of_shape _ _ hsh u
    simp only [init_ba_input_data]
    rw [List.nil_append]
    exact List.flatMap_congr (fun u _ => hfn u)
  · rw [load_data_false_eq]
    rfl

theorem set_ba_shape (env : Env) (s : SceneState) (ti : List ℕ) (p : ℕ) :
    timelineShape (set_ba_input_data env s ti p).timeline = timelineShape s.timeline := by
  simp only [set_ba_input_data]
  split
  · rw [load_data_false_eq]
    exact load_prev_shape env (init_ba_input_data s) (pyMin ti) p
  · rw [load_data_false_eq]
    rfl

theorem set_ba_fix_ref_cam (env : Env) (s : SceneState) (ti : List ℕ) (p : ℕ) :
    (set_ba_input_data env s ti p).fix_ref_cam = s.fix_ref_cam := by
  simp only [set_ba_input_data]
  split
  · rw [load_data_false_eq]
    exact load_prev_fix_ref_cam env (init_ba_input_data s) (pyMin ti) p
  · rw [load_data_false_eq]
    rfl

theorem set_ba_n_dates (env : Env) (s : SceneState) (ti : List ℕ) (p : ℕ) :
    (set_ba_input_data env s ti p).n_dates = s.n_dates := by
  simp only [set_ba_input_data]
  split
  · rw [load_data_false_eq]
    exact load_prev_n_dates env (init_ba_input_data s) (pyMin ti) p
  · rw [load_data_false_eq]
    rfl

theorem step_shape (env : Env) (s : SceneState) (idx t : ℕ) :
    timelineShape ((run_sequential_step env s idx t).1).timeline = timelineShape s.timeline := by
  simp only [run_sequential_step, bundle_adjust_persist]
  exact set_ba_shape env s [t] s.n_dates

theorem step_n_dates (env : Env) (s : SceneState) (idx t : ℕ) :
    ((run_sequential_step env s idx t).1).n_dates = s.n_dates := by
  simp only [run_sequential_step, bundle_adjust_persist]
  exact set_ba_n_dates env s [t] s.n_dates

theorem step_call_images_new (env : Env) (s : SceneState) (idx t : ℕ) :
    ((run_sequential_step env s idx t).2).images_new = (entryAt s.timeline t).fnames := by
  simp only [run_sequential_step]
  rw [set_ba_images_new]
  simp

theorem step_call_frc (env : Env) (s : SceneState) (idx t : ℕ) :
    ((run_sequential_step env s idx t).2).fix_ref_cam
      = ((idx == 0 && s.fix_ref_cam) || (s.n_dates == 0 && s.fix_ref_cam)) := by
  simp only [run_sequential_step]
  rw [set_ba_fix_ref_cam, set_ba_n_dates]

theorem step_state_frc (env : Env) (s : SceneState) (idx t : ℕ) :
    ((run_sequential_step env s idx t).1).fix_ref_cam
      = ((idx == 0 && s.fix_ref_cam) || (s.n_dates == 0 && s.fix_ref_cam)) := by
  simp only [run_sequential_step, bundle_adjust_persist]
  rw [set_ba_fix_ref_cam, set_ba_n_dates]

theorem run_seq_frc_later (env : Env) (sel : List ℕ) :
    ∀ (s : SceneState) (idx : ℕ), 1 ≤ idx → 0 < s.n_dates →
      ((run_sequential_go env s idx sel).2).map (fun c => c.fix_ref_cam)
        = List.replicate sel.length false := by
  induction sel with
  | nil => intro s idx h1 h2; rfl
  | cons t rest ih =>
    intro s idx h1 h2
    simp only [run_sequential_go, List.map_cons, List.length_cons, List.replicate_succ]
    rw [step_call_frc]
    have hidx : (idx == 0) = false := by
      simp only [beq_eq_false_iff_ne, ne_eq]
      omega
    have hnd : (s.n_dates == 0) = false := by
      simp only [beq_eq_false_iff_ne, ne_eq]
      omega
    rw [hidx, hnd]
    simp only [Bool.false_and, Bool.or_self]
    rw [ih ((run_sequential_step env s idx t).1) (idx + 1) (by omega)
      (by rw [step_n_dates]; exact h2)]

theorem run_seq_frc_nd_zero (env : Env) (sel : List ℕ) :
    ∀ (s : SceneState) (idx : ℕ), s.n_dates = 0 → s.fix_ref_cam = true →
      ((run_sequential_go env s idx sel).2).map (fun c => c.fix_ref_cam)
        = List.replicate sel.length true := by
  induction sel with
  | nil => intro s idx h1 h2; rfl
  | cons t rest ih =>
    intro s idx h1 h2
    simp only [run_sequential_go, List.map_cons, List.length_cons, List.replicate_succ]
    have hnd : (s.n_dates == 0) = true := by
      simp only [beq_iff_eq]
      exact h1
    rw [step_call_frc, hnd, h2]
    simp only [Bool.and_true, Bool.true_and, Bool.or_true]
    rw [ih ((run_sequential_step env s idx t).1) (idx + 1)
      (by rw [step_n_dates]; exact h1)
      (by rw [step_state_frc, hnd, h2]; simp)]

theorem insertByDist_perm (t x : ℕ) (l : List ℕ) : (insertByDist t x l).Perm (x :: l) := by
  induction l with
  | nil => exact List.Perm.refl _
  | cons y ys ih =>
    simp only [insertByDist]
    split
    · exact List.Perm.refl _
    · exact (ih.cons y).trans (List.Perm.swap x y ys)

theorem sortByDist_perm (t : ℕ) (l : List ℕ) : (sortByDist t l).Perm l := by
  induction l with
  | nil => exact List.Perm.refl _
  | cons x xs ih => exact (insertByDist_perm t x _).trans (ih.cons x)

theorem entryAt_of_lt (tl : List TimelineEntry) (i : ℕ) (h : i < tl.length) :
    entryAt tl i = tl.get ⟨i, h⟩ := by
  unfold entryAt
  rw [List.get?_eq_get h]
  rfl

theorem entry_fnames_nodup (tl : List TimelineEntry)
    (h1 : ((tl.map (fun e => e.fnames)).flatten).Nodup) (i : ℕ) (hi : i < tl.length) :
    ((entryAt tl i).fnames).Nodup := by
  rw [entryAt_of_lt tl i hi]
  refine (List.nodup_flatten.1 h1).1 _ ?_
  exact List.mem_map_of_mem _ (tl.get_mem i hi)

theorem flatMap_entry_nodup (tl : List TimelineEntry) (idxs : List ℕ)
    (h1 : ((tl.map (fun e => e.fnames)).flatten).Nodup)
    (h2 : idxs.Nodup) (h3 : ∀ i ∈ idxs, i < tl.length) :
    (idxs.flatMap (fun t => (entryAt tl t).fnames)).Nodup := by
  rw [List.nodup_flatMap]
  constructor
  · intro i hi
    exact entry_fnames_nodup tl h1 i (h3 i hi)
  · have hpair : List.Pairwise List.Disjoint (tl.map (fun e => e.fnames)) :=
      (List.nodup_flatten.1 h1).2
    have hget : ∀ (i j : ℕ) (hi : i < tl.length) (hj : j < tl.length), i ≠ j →
        List.Disjoint (tl.get ⟨i, hi⟩).fnames (tl.get ⟨j, hj⟩).fnames := by
      intro i j hi hj hne
      rcases Nat.lt_or_ge i j with hij | hij
      · have hp := (List.pairwise_iff_get.1 hpair)
          ⟨i, by simpa using hi⟩ ⟨j, by simpa using hj⟩ (by simpa using hij)
        simpa [List.get_map] using hp
      · have hji : j < i := by omega
        have hp := (List.pairwise_iff_get.1 hpair)
          ⟨j, by simpa using hj⟩ ⟨i, by simpa using hi⟩ (by simpa using hji)
        exact List.Disjoint.symm (by simpa [List.get_map] using hp)
    refine h2.imp_of_mem ?_
    intro a b ha hb hab
    have hal := h3 a ha
    have hbl := h3 b hb
    simp only [Function.onFun]
    rw [entryAt_of_lt _ _ hal, entryAt_of_lt _ _ hbl]
    exact hget a b hal hbl hab

theorem reset_events_eq (s : SceneState) :
    (reset_ba_params s).2
      = (if s.ba_dir_exists then [RunEvent.deleteDir (s.dst_dir ++ "/" ++ s.ba_method)]
         else []) := rfl

theorem margin_pos : (0 : ℤ) < margin := by decide

theorem argminAux_lt (xs : List ℤ) :
    ∀ (best : ℤ) (bestIdx cur : ℕ), bestIdx < cur →
      argminAux best bestIdx cur xs < cur + xs.length := by
  induction xs with
  | nil =>
    intro best bi cur h
    simp only [argminAux, List.length_nil]
    omega
  | cons x xs ih =>
    intro best bi cur h
    simp only [argminAux, List.length_cons]
    split
    · have h2 := ih x cur (cur + 1) (by omega)
      omega
    · have h2 := ih best bi (cur + 1) (by omega)
      omega

theorem argminIdx_lt (l : List ℤ) (h : l ≠ []) : argminIdx l < l.length := by
  cases l with
  | nil => exact absurd rfl h
  | cons x xs =>
    simp only [argminIdx, List.length_cons]
    have h2 := argminAux_lt xs x 0 1 (by omega)
    omega

theorem getD_map_diff (acc : List DateCluster) (x : ℤ) (i : ℕ) (h : i < acc.length) :
    (acc.map (fun c => dt_diff_in_mins c.rep x)).getD i 0
      = dt_diff_in_mins (acc.get ⟨i, h⟩).rep x := by
  rw [List.getD_eq_get?, List.get?_map, List.get?_eq_get h]
  rfl

theorem appendToCluster_forall {P : DateCluster → Prop} :
    ∀ (acc : List DateCluster) (i : ℕ) (im : ℤ × String),
      (∀ c ∈ acc, P c) →
      (∀ h : i < acc.length,
        P { acc.get ⟨i, h⟩ with members := (acc.get ⟨i, h⟩).members ++ [im] }) →
      ∀ c ∈ appendToCluster acc i im, P c := by
  intro acc
  induction acc with
  | nil =>
    intro i im h1 h2 c hc
    simp [appendToCluster] at hc
  | cons a as ih =>
    intro i im h1 h2 c hc
    cases i with
    | zero =>
      simp only [appendToCluster] at hc
      rcases List.mem_cons.1 hc with rfl | hmem
      · exact h2 (by simp)
      · exact h1 c (List.mem_cons_of_mem a hmem)
    | succ n =>
      simp only [appendToCluster] at hc
      rcases List.mem_cons.1 hc with rfl | hmem
      · exact h1 _ (List.mem_cons_self _ _)
      · refine ih n im (fun c3 hc3 => h1 c3 (List.mem_cons_of_mem a hc3)) ?_ c hmem
        intro hlt
        exact h2 (by simpa using Nat.succ_lt_succ hlt)

theorem insertByTime_perm (x : ℤ × String) (l : List (ℤ × String)) :
    (insertByTime x l).Perm (x :: l) := by
  induction l with
  | nil => exact List.Perm.refl _
  | cons y ys ih =>
    simp only [insertByTime]
    split
    · exact List.Perm.refl _
    · exact (ih.cons y).trans (List.Perm.swap x y ys)

theorem insertByTime_pairwise (x : ℤ × String) (l : List (ℤ × String))
    (h : List.Pairwise (fun a b : ℤ × String => a.1 ≤ b.1) l) :
    List.Pairwise (fun a b : ℤ × String => a.1 ≤ b.1) (insertByTime x l) := by
  induction l with
  | nil => simp [insertByTime]
  | cons y ys ih =>
    have hp := List.pairwise_cons.1 h
    simp only [insertByTime]
    split
    · next hxy =>
      refine List.pairwise_cons.2 ⟨?_, h⟩
      intro b hb
      rcases List.mem_cons.1 hb with rfl | hbys
      · exact hxy
      · exact le_trans hxy (hp.1 b hbys)
    · next hxy =>
      have hyx : y.1 ≤ x.1 := le_of_not_le hxy
      refine List.pairwise_cons.2 ⟨?_, ih hp.2⟩
      intro b hb
      have hb2 := (insertByTime_perm x ys).mem_iff.1 hb
      rcases List.mem_cons.1 hb2 with rfl | hbys
      · exact hyx
      · exact hp.1 b hbys

theorem sortByTime_pairwise (l : List (ℤ × String)) :
    List.Pairwise (fun a b : ℤ × String => a.1 ≤ b.1) (sortByTime l) := by
  induction l with
  | nil => simp [sortByTime]
  | cons x xs ih => exact insertByTime_pairwise x _ ih

theorem foldl_groupStep_sound (l : List (ℤ × String)) :
    ∀ acc : List DateCluster,
      List.Pairwise (fun a b : ℤ × String => a.1 ≤ b.1) l →
      (∀ c ∈ acc, clusterSound c ∧ ∀ m ∈ c.members, ∀ y ∈ l, m.1 ≤ y.1) →
      ∀ c ∈ l.foldl groupStep acc, clusterSound c := by
  induction l with
  | nil =>
    intro acc hs h c hc
    exact (h c hc).1
  | cons x xs ih =>
    intro acc hs h c hc
    simp only [List.foldl_cons] at hc
    have hpair := List.pairwise_cons.1 hs
    refine ih (groupStep acc x) hpair.2 ?_ c hc
    intro c2 hc2
    have hnewP : ∀ c3 ∈ acc ++ [({ rep := x.1, members := [x] } : DateCluster)],
        clusterSound c3 ∧ ∀ m ∈ c3.members, ∀ y ∈ xs, m.1 ≤ y.1 := by
      intro c3 hc3
      rcases List.mem_append.1 hc3 with hmem | hmem
      · exact ⟨(h c3 hmem).1,
          fun m hm y hy => (h c3 hmem).2 m hm y (List.mem_cons_of_mem x hy)⟩
      · have he : c3 = { rep := x.1, members := [x] } := by simpa using hmem
        subst he
        refine ⟨⟨⟨x, by simp, rfl⟩, ?_⟩, ?_⟩
        · intro m hm
          have he2 : m = x := by simpa using hm
          subst he2
          refine ⟨le_refl _, ?_⟩
          simp only [dt_diff_in_mins, sub_self, abs_zero]
          exact margin_pos
        · intro m hm y hy
          have he2 : m = x := by simpa using hm
          subst he2
          exact hpair.1 y hy
    simp only [groupStep] at hc2
    split at hc2
    · next hlen =>
      split at hc2
      · next hmin =>
        have hne : acc.map (fun c => dt_diff_in_mins c.rep x.1) ≠ [] := by
          intro he
          rw [he] at hlen
          simp at hlen
        have hlt : argminIdx (acc.map (fun c => dt_diff_in_mins c.rep x.1)) < acc.length := by
          have h2 := argminIdx_lt _ hne
          simpa using h2
        rw [getD_map_diff acc x.1 _ hlt] at hmin
        refine @appendToCluster_forall
          (fun c3 => clusterSound c3 ∧ ∀ m ∈ c3.members, ∀ y ∈ xs, m.1 ≤ y.1)
          acc _ x ?_ ?_ c2 hc2
        · intro c3 hc3
          exact ⟨(h c3 hc3).1,
            fun m hm y hy => (h c3 hc3).2 m hm y (List.mem_cons_of_mem x hy)⟩
        · intro hlt2
          have hamem : acc.get ⟨argminIdx (acc.map (fun c => dt_diff_in_mins c.rep x.1)), hlt2⟩
              ∈ acc := List.get_mem acc _ hlt2
          have haok := h _ hamem
          have hrep_le : (acc.get ⟨argminIdx (acc.map (fun c => dt_diff_in_mins c.rep x.1)),
              hlt2⟩).rep ≤ x.1 := by
            obtain ⟨m0, hm0, hm0e⟩ := haok.1.1
            rw [← hm0e]
            exact haok.2 m0 hm0 x (List.mem_cons_self x xs)
          constructor
          · constructor
            · obtain ⟨m0, hm0, hm0e⟩ := haok.1.1
              exact ⟨m0, List.mem_append_left _ hm0, hm0e⟩
            · intro m hm
              rcases List.mem_append.1 hm with hmo | hmx
              · exact haok.1.2 m hmo
              · have he2 : m = x := by simpa using hmx
                subst he2
                exact ⟨hrep_le, hmin⟩
          · intro m hm y hy
            rcases List.mem_append.1 hm with hmo | hmx
            · exact haok.2 m hmo y (List.mem_cons_of_mem x hy)
            · have he2 : m = x := by simpa using hmx
              subst he2
              exact hpair.1 y hy
      · next hmin =>
        exact hnewP c2 hc2
    · next hlen =>
      exact hnewP c2 hc2

theorem same_cluster_diff_lt (datetimes : List ℤ) (image_fnames : List String)
    (c : DateCluster) (hc : c ∈ (sortByTime (datetimes.zip image_fnames)).foldl groupStep [])
    (m1 : ℤ × String) (hm1 : m1 ∈ c.members) (m2 : ℤ × String) (hm2 : m2 ∈ c.members) :
    dt_diff_in_mins m1.1 m2.1 < margin := by
  have hsound := foldl_groupStep_sound (sortByTime (datetimes.zip image_fnames)) []
    (sortByTime_pairwise _) (by intro c3 hc3; simp at hc3) c hc
  have h1 := hsound.2 m1 hm1
  have h2 := hsound.2 m2 hm2
  simp only [dt_diff_in_mins, abs_sub_lt_iff] at h1 h2 ⊢
  omega

theorem groupStep_single (c : DateCluster) (im : ℤ × String)
    (h : dt_diff_in_mins c.rep im.1 < margin) :
    groupStep [c] im = [{ c with members := c.members ++ [im] }] := by
  simp only [groupStep, List.map_cons, List.map_nil]
  rw [if_pos (by simp)]
  rw [if_pos (by exact h)]
  rfl

theorem foldl_groupStep_two (a b : ℤ × String) (h : dt_diff_in_mins a.1 b.1 < margin) :
    [a, b].foldl groupStep [] = [{ rep := a.1, members := [a, b] }] := by
  show groupStep (groupStep [] a) b = _
  have h1 : groupStep [] a = [{ rep := a.1, members := [a] }] := rfl
  rw [h1, groupStep_single { rep := a.1, members := [a] } b h]
  rfl

theorem group_two_images (t1 t2 : ℤ) (f1 f2 : String)
    (h : dt_diff_in_mins t1 t2 < margin) :
    (group_files_by_date [t1, t2] [f1, f2]).length = 1
    ∧ ∀ e ∈ group_files_by_date [t1, t2] [f1, f2], f1 ∈ e.fnames ∧ f2 ∈ e.fnames := by
  simp only [group_files_by_date]
  have hzip : List.zip [t1, t2] [f1, f2] = [(t1, f1), (t2, f2)] := rfl
  rw [hzip]
  by_cases hle : t1 ≤ t2
  · have hsort : sortByTime [(t1, f1), (t2, f2)] = [(t1, f1), (t2, f2)] := by
      show insertByTime (t1, f1) [(t2, f2)] = _
      simp only [insertByTime]
      rw [if_pos (show (t1, f1).1 ≤ (t2, f2).1 from hle)]
    have hfold := foldl_groupStep_two (t1, f1) (t2, f2)
      (show dt_diff_in_mins (t1, f1).1 (t2, f2).1 < margin from h)
    rw [hsort, hfold]
    refine ⟨rfl, ?_⟩
    intro e he
    obtain ⟨c0, hc0, rfl⟩ := List.mem_map.1 he
    have hc0e : c0 = { rep := (t1, f1).1, members := [(t1, f1), (t2, f2)] } := by
      simpa using hc0
    subst hc0e
    constructor <;> simp
  · have hle2 : ¬((t1, f1).1 ≤ (t2, f2).1) := hle
    have hsort : sortByTime [(t1, f1), (t2, f2)] = [(t2, f2), (t1, f1)] := by
      show insertByTime (t1, f1) [(t2, f2)] = _
      simp only [insertByTime]
      rw [if_neg hle2]
    have h2 : dt_diff_in_mins (t2, f2).1 (t1, f1).1 < margin := by
      show |t2 - t1| < margin
      rw [abs_sub_comm]
      exact h
    have hfold := foldl_groupStep_two (t2, f2) (t1, f1) h2
    rw [hsort, hfold]
    refine ⟨rfl, ?_⟩
    intro e he
    obtain ⟨c0, hc0, rfl⟩ := List.mem_map.1 he
    have hc0e : c0 = { rep := (t2, f2).1, members := [(t2, f2), (t1, f1)] } := by
      simpa using hc0
    subst hc0e
    constructor <;> simp

-- ===================== claim theorems =====================

/-- C1, counterexample: with timestamps [t0, t0 + 20 min, t0 + 35 min] (in
milliseconds) and the 30-minute threshold, the clusterer does NOT place the
third image in the cluster of the second: no cluster contains both b and c.
The third image instead starts a new cluster, because distances are only
measured to cluster representatives and the second image never becomes one. -/
theorem c1_counterexample :
    (group_files_by_date [0, 20 * 60000, 35 * 60000] ["a", "b", "c"]).map (fun e => e.fnames)
      = [["a", "b"], ["c"]]
    ∧ ∀ e ∈ group_files_by_date [0, 20 * 60000, 35 * 60000] ["a", "b", "c"],
        ¬ ("b" ∈ e.fnames ∧ "c" ∈ e.fnames) := by
  decide

/-- C1, amended: with timestamps [t0, t0 + 20 min, t0 + 35 min] and the
30-minute threshold, the third image starts a new cluster with itself as
representative: cluster distances are measured only to the representatives
(the first image of each cluster), the second image joins the first cluster
without becoming a representative, and the distance from the third image to
the only representative t0 is 35 minutes, not strictly below 30. -/
theorem c1_amended :
    (group_files_by_date [0, 20 * 60000, 35 * 60000] ["a", "b", "c"]).map
        (fun e => (e.id, e.fnames))
      = [(0, ["a", "b"]), (35 * 60000, ["c"])] := by
  decide

/-- C2: the filename the load side looks up is NOT the filename the save side
wrote. Scene.load_scene saves the initial rpc of an image under
dst_dir/rpcs_init/<id>.rpc, while Scene.load_data_from_dates loads it back
through loader.load_rpcs_from_dir without overriding the default suffix
RPC_adj, so the file looked up is dst_dir/rpcs_init/<id>RPC_adj.rpc, which was
never written; the save/load round trip therefore fails for every image. -/
theorem c2_filename_mismatch :
    saved_init_rpc_fname "out" "img/20200101_120000_a.JP2"
      = "out/rpcs_init/20200101_120000_a.rpc"
    ∧ loaded_init_rpc_fname "out" "img/20200101_120000_a.JP2"
      = "out/rpcs_init/20200101_120000_aRPC_adj.rpc"
    ∧ saved_init_rpc_fname "out" "img/20200101_120000_a.JP2"
      ≠ loaded_init_rpc_fname "out" "img/20200101_120000_a.JP2" := by
  decide

/-- C3, counterexample: a run configured with the invalid strategy name ba_typo,
the reset flag set and an existing bundle adjustment directory deletes that
directory (a filesystem write) before the invalid name is rejected; the claim
that no files or directories are read, created or deleted before rejection is
therefore false. -/
theorem c3_counterexample :
    (run_bundle_adjustment_for_RPC_refinement env0 s3c).2 =
      [RunEvent.deleteDir "out/ba_typo", RunEvent.fatalStop] := by
  decide

/-- C3, amended: for every scene whose strategy name is invalid, the run ends
with a fatal exit and performs no optimization call, but the rejection happens
after the reset step: when the reset flag is set and dst_dir/ba_method exists,
that directory is deleted before the invalid name is detected; the trace is
exactly the optional deletion followed by the fatal exit. -/
theorem c3_amended (env : Env) (s : SceneState)
    (h : is_ba_method_valid s.ba_method = false) :
    (run_bundle_adjustment_for_RPC_refinement env s).2
      = (if s.reset && s.ba_dir_exists then
          [RunEvent.deleteDir (s.dst_dir ++ "/" ++ s.ba_method)] else [])
        ++ [RunEvent.fatalStop]
    ∧ ∀ c, RunEvent.baCall c ∉ (run_bundle_adjustment_for_RPC_refinement env s).2 := by
  have hne : s.ba_method ≠ "ba_global" ∧ s.ba_method ≠ "ba_sequential"
      ∧ s.ba_method ≠ "ba_bruteforce" := by
    simpa [is_ba_method_valid] using h
  have hev : (run_bundle_adjustment_for_RPC_refinement env s).2
      = (if s.reset && s.ba_dir_exists then
          [RunEvent.deleteDir (s.dst_dir ++ "/" ++ s.ba_method)] else [])
        ++ [RunEvent.fatalStop] := by
    by_cases hr : s.reset
    · simp only [run_bundle_adjustment_for_RPC_refinement, hr, if_true]
      rw [if_neg (by exact hne.2.1), if_neg (by exact hne.1), if_neg (by exact hne.2.2)]
      rw [reset_events_eq]
      simp [hr]
    · simp only [run_bundle_adjustment_for_RPC_refinement, hr]
      rw [if_neg (by exact hne.2.1), if_neg (by exact hne.1), if_neg (by exact hne.2.2)]
      simp [hr]
  refine ⟨hev, ?_⟩
  intro c
  rw [hev]
  by_cases hb : (s.reset && s.ba_dir_exists) = true
  · rw [if_pos hb]
    simp
  · rw [if_neg hb]
    simp

/-- C3, witness for the amended theorem at the scene s3c. -/
theorem c3_amended_witness :
    is_ba_method_valid s3c.ba_method = false
    ∧ ((run_bundle_adjustment_for_RPC_refinement env0 s3c).2
        = (if s3c.reset && s3c.ba_dir_exists then
            [RunEvent.deleteDir (s3c.dst_dir ++ "/" ++ s3c.ba_method)] else [])
          ++ [RunEvent.fatalStop]
      ∧ ∀ c, RunEvent.baCall c ∉ (run_bundle_adjustment_for_RPC_refinement env0 s3c).2) :=
  ⟨by decide, c3_amended env0 s3c (by decide)⟩

/-- C4, counterexample: the scene s4 reruns a sequential adjustment with date 0
already adjusted on disk and the reset flag off; the rerun still issues an
optimization call whose new images are the images of date 0 (the first event),
so dates 1..k are redone rather than only k+1..n being recomputed; the
previously adjusted date only reappears as anchor data of the second call. -/
theorem c4_counterexample :
    (run_bundle_adjustment_for_RPC_refinement env4 s4).2 =
      [RunEvent.baCall { images_adj := [], images_new := ["a.JP2"], fix_ref_cam := false },
       RunEvent.baCall { images_adj := ["a.JP2"], images_new := ["b.JP2"], fix_ref_cam := false }] := by
  decide

/-- C4, amended: the sequential loop issues exactly one optimization call per
selected date, in order, whose new images are exactly that date's images,
regardless of the initial state — in particular regardless of which adjusted
data already exists on disk; previously adjusted dates are only used as anchor
inputs, never skipped. -/
theorem c4_amended (env : Env) (sel : List ℕ) :
    ∀ (s : SceneState) (idx : ℕ),
      ((run_sequential_go env s idx sel).2).map (fun c => c.images_new)
        = sel.map (fun t => (entryAt s.timeline t).fnames) := by
  induction sel with
  | nil => intro s idx; rfl
  | cons t rest ih =>
    intro s idx
    simp only [run_sequential_go, List.map_cons]
    rw [step_call_images_new, ih ((run_sequential_step env s idx t).1) (idx + 1)]
    congr 1
    apply List.map_congr_left
    intro u _
    exact entry_fnames_of_shape _ _ (step_shape env s idx t) u

/-- C5, counterexample: in the scene s5 (dates 0 and 1 adjusted on disk from an
earlier run, reset off) the sequential iterations process the selected indices
in the non-ascending order [2, 1]; the first iteration marks timeline entry 1
adjusted, and the second iteration then loads the images of date 1 both as
anchor data and as new data, so the image list assembled by set_ba_input_data
for the second call contains the duplicate b.JP2. -/
theorem c5_counterexample :
    ((run_sequential_go env5 s5 0 [2, 1]).2).map (fun c => c.images_adj ++ c.images_new)
      = [["b.JP2", "c.JP2"], ["b.JP2", "b.JP2"]]
    ∧ ¬ ((((run_sequential_go env5 s5 0 [2, 1]).2).getD 1 default).images_adj
        ++ (((run_sequential_go env5 s5 0 [2, 1]).2).getD 1 default).images_new).Nodup := by
  decide

/-- C5, amended: the image list assembled by set_ba_input_data for a single
date t contains no duplicate image identifier provided every timeline entry
already flagged adjusted has index strictly below t — which is the invariant
maintained when the sequential iterations process their dates in ascending
order — and the timeline entries have globally duplicate-free image lists. -/
theorem c5_amended (env : Env) (s : SceneState) (t prev : ℕ)
    (h1 : ((s.timeline.map (fun e => e.fnames)).flatten).Nodup)
    (h2 : ∀ idx, idx < s.timeline.length → (entryAt s.timeline idx).adjusted = true → idx < t)
    (h3 : t < s.timeline.length) :
    (ba_images (set_ba_input_data env s [t] prev)).Nodup := by
  have hmin : pyMin [t] = t := rfl
  simp only [set_ba_input_data, ba_images, hmin]
  split
  case isTrue hp =>
    rw [load_data_false_eq]
    simp only [load_prev_adjusted_dates]
    have hsh : timelineShape ((check_adjusted_dates env (init_ba_input_data s) t).1).timeline
        = timelineShape s.timeline := check_shape env (init_ba_input_data s) t
    have hlen : ((check_adjusted_dates env (init_ba_input_data s) t).1).timeline.length
        = s.timeline.length := length_of_shape _ _ hsh
    have hfl : ((((check_adjusted_dates env (init_ba_input_data s) t).1).timeline.map
        (fun e => e.fnames)).flatten).Nodup := by
      rw [fnames_map_of_shape _ _ hsh]
      exact h1
    have hflag : ∀ i, i < ((check_adjusted_dates env (init_ba_input_data s) t).1).timeline.length →
        (entryAt ((check_adjusted_dates env (init_ba_input_data s) t).1).timeline i).adjusted = true →
        i < t := by
      intro i hil hia
      by_cases hit : i < t
      · exact hit
      · exfalso
        have hle : t ≤ i := by omega
        have hq := check_timeline_get?_of_le env (init_ba_input_data s) t i hle
        have heq : entryAt ((check_adjusted_dates env (init_ba_input_data s) t).1).timeline i
            = entryAt s.timeline i := by
          unfold entryAt
          rw [hq]
          rfl
        rw [heq] at hia
        have := h2 i (by omega) hia
        omega
    split
    case isTrue hfound =>
      rw [load_data_true_eq]
      dsimp only
      rw [check_images_adj, check_images_new, init_images_adj, init_images_new,
        List.nil_append, List.nil_append, ← List.flatMap_append]
      have hmem : ∀ i ∈ List.take prev (sortByDist t (List.filter
          (fun idx =>
            (entryAt ((check_adjusted_dates env (init_ba_input_data s) t).1).timeline idx).adjusted)
          (List.range ((check_adjusted_dates env (init_ba_input_data s) t).1).timeline.length))),
          i < ((check_adjusted_dates env (init_ba_input_data s) t).1).timeline.length ∧ i < t := by
        intro i hi
        have hi2 := (sortByDist_perm t _).mem_iff.1 (List.take_subset _ _ hi)
        rw [List.mem_filter] at hi2
        have hir := List.mem_range.1 hi2.1
        exact ⟨hir, hflag i hir hi2.2⟩
      apply flatMap_entry_nodup
      · exact hfl
      · rw [List.nodup_append]
        refine ⟨?_, List.nodup_singleton t, ?_⟩
        · refine (List.take_sublist _ _).nodup ?_
          exact ((sortByDist_perm t _).symm).nodup ((List.nodup_range _).filter _)
        · intro a ha hb
          have h5 := (hmem a ha).2
          have h6 : a = t := by simpa using hb
          omega
      · intro i hi
        rcases List.mem_append.1 hi with hiu | hit
        · exact (hmem i hiu).1
        · have h6 : i = t := by simpa using hit
          subst h6
          omega
    case isFalse hfound =>
      rw [check_images_adj, check_images_new, init_images_adj, init_images_new,
        List.nil_append, List.nil_append]
      simp only [List.flatMap_cons, List.flatMap_nil, List.append_nil]
      exact entry_fnames_nodup _ hfl t (by omega)
  case isFalse hp =>
    rw [load_data_false_eq]
    simp only [init_images_adj, init_images_new, List.nil_append]
    simp only [List.flatMap_cons, List.flatMap_nil, List.append_nil]
    have : entryAt (init_ba_input_data s).timeline t = entryAt s.timeline t := rfl
    rw [this]
    exact entry_fnames_nodup s.timeline h1 t h3

/-- C5, witness for the amended theorem: the scene s5 with no entry yet flagged
adjusted assembles the input for date 1 with one anchor date without any
duplicate image identifier. -/
theorem c5_amended_witness :
    (((s5.timeline.map (fun e => e.fnames)).flatten).Nodup
      ∧ (∀ idx, idx < s5.timeline.length →
          (entryAt s5.timeline idx).adjusted = true → idx < 1)
      ∧ 1 < s5.timeline.length)
    ∧ (ba_images (set_ba_input_data env5 s5 [1] 1)).Nodup :=
  ⟨⟨by decide, by decide, by decide⟩,
   c5_amended env5 s5 1 1 (by decide) (by decide) (by decide)⟩

/-- C6: check_adjusted_dates called with index t_idx leaves every timeline
entry at position t_idx or later completely unchanged — in particular it never
marks such an entry adjusted, even when the adjusted files of that entry exist
on disk. -/
theorem c6_no_future_marking (env : Env) (s : SceneState) (t_idx idx : ℕ)
    (h : t_idx ≤ idx) :
    ((check_adjusted_dates env s t_idx).1).timeline.get? idx = s.timeline.get? idx :=
  check_timeline_get?_of_le env s t_idx idx h

/-- C6, witness: in the scene s4 the adjusted rpc of the date at index 0 exists
on disk, yet check_adjusted_dates with t_idx = 0 leaves that entry unchanged. -/
theorem c6_no_future_marking_witness :
    (0 : ℕ) ≤ 0 ∧ ((check_adjusted_dates env4 s4 0).1).timeline.get? 0 = s4.timeline.get? 0 :=
  ⟨Nat.le_refl 0, c6_no_future_marking env4 s4 0 0 (Nat.le_refl 0)⟩

/-- C7: on three selected dates with 2, 1 and 3 images and lookahead 1, the
pair generator returns exactly the 9 expected pairs — the 4 intra-date pairs,
the 2 cross pairs between dates 0 and 1 and the 3 cross pairs between dates 1
and 2 — each pair unique and emitted once with the smaller concatenated image
index first, with the lookahead clamped at the last date. -/
theorem c7_pair_completeness :
    load_pairs_from_same_date_and_next_dates tl7 [0, 1, 2] 1 true
      = [(0, 1), (0, 2), (1, 2), (2, 3), (2, 4), (2, 5), (3, 4), (3, 5), (4, 5)]
    ∧ (load_pairs_from_same_date_and_next_dates tl7 [0, 1, 2] 1 true).Nodup
    ∧ ∀ p ∈ load_pairs_from_same_date_and_next_dates tl7 [0, 1, 2] 1 true, p.1 < p.2 := by
  decide

/-- C8: in the sequential strategy with the fix-reference-camera flag configured
true, when n_dates is positive the first processed date runs with the flag true
and every later date runs with it false; when n_dates is zero the flag stays
true for every date. -/
theorem c8_fix_ref_cam_sequence (env : Env) (s : SceneState) (t : ℕ) (rest : List ℕ)
    (hF : s.fix_ref_cam = true) :
    (0 < s.n_dates →
      ((run_sequential_go env s 0 (t :: rest)).2).map (fun c => c.fix_ref_cam)
        = true :: List.replicate rest.length false)
    ∧ (s.n_dates = 0 →
      ((run_sequential_go env s 0 (t :: rest)).2).map (fun c => c.fix_ref_cam)
        = List.replicate (t :: rest).length true) := by
  constructor
  · intro hnd
    simp only [run_sequential_go, List.map_cons]
    have hfrc : ((run_sequential_step env s 0 t).2).fix_ref_cam = true := by
      rw [step_call_frc, hF]
      simp
    rw [hfrc]
    rw [run_seq_frc_later env rest ((run_sequential_step env s 0 t).1) 1 (Nat.le_refl 1)
      (by rw [step_n_dates]; exact hnd)]
  · intro hnd
    exact run_seq_frc_nd_zero env (t :: rest) s 0 hnd hF

/-- C8, witness at the scene s8 (fix_ref_cam true, n_dates = 1, two dates). -/
theorem c8_fix_ref_cam_sequence_witness :
    s8.fix_ref_cam = true ∧ 0 < s8.n_dates ∧
      ((run_sequential_go env4 s8 0 [0, 1]).2).map (fun c => c.fix_ref_cam)
        = true :: List.replicate 1 false :=
  ⟨rfl, by decide, (c8_fix_ref_cam_sequence env4 s8 0 [1] rfl).1 (by decide)⟩

/-- C9: in every scene, any two images that the clusterer places in the same
cluster have timestamps strictly less than the 30-minute margin apart, so two
images exactly 30 minutes apart always land in different clusters, also with
other images present; the emitted timeline entries are exactly those clusters
filename lists; and for every pair of images strictly less than 30 minutes
apart with no other images present, the clusterer produces one single cluster
containing both: the threshold comparison is strict less-than. -/
theorem c9_threshold_boundary :
    (∀ (datetimes : List ℤ) (image_fnames : List String) (c : DateCluster),
      c ∈ (sortByTime (datetimes.zip image_fnames)).foldl groupStep [] →
      ∀ m1 ∈ c.members, ∀ m2 ∈ c.members, dt_diff_in_mins m1.1 m2.1 < margin)
    ∧ (∀ (datetimes : List ℤ) (image_fnames : List String) (c : DateCluster),
      c ∈ (sortByTime (datetimes.zip image_fnames)).foldl groupStep [] →
      ∀ m1 ∈ c.members, ∀ m2 ∈ c.members, dt_diff_in_mins m1.1 m2.1 = margin → False)
    ∧ (∀ (datetimes : List ℤ) (image_fnames : List String),
      (group_files_by_date datetimes image_fnames).map (fun e => e.fnames)
        = ((sortByTime (datetimes.zip image_fnames)).foldl groupStep []).map
            (fun c => c.members.map (fun m => m.2)))
    ∧ (∀ (t1 t2 : ℤ) (f1 f2 : String), dt_diff_in_mins t1 t2 < margin →
      (group_files_by_date [t1, t2] [f1, f2]).length = 1
      ∧ ∀ e ∈ group_files_by_date [t1, t2] [f1, f2], f1 ∈ e.fnames ∧ f2 ∈ e.fnames) := by
  refine ⟨?_, ?_, ?_, ?_⟩
  · intro dts fns c hc m1 hm1 m2 hm2
    exact same_cluster_diff_lt dts fns c hc m1 hm1 m2 hm2
  · intro dts fns c hc m1 hm1 m2 hm2 he
    have hlt := same_cluster_diff_lt dts fns c hc m1 hm1 m2 hm2
    rw [he] at hlt
    exact absurd hlt (lt_irrefl _)
  · intro dts fns
    simp only [group_files_by_date, List.map_map]
    rfl
  · intro t1 t2 f1 f2 h
    exact group_two_images t1 t2 f1 f2 h

/-- C9, witness: the within-cluster bound applied to a two-image scene one
minute apart (60000 ms), and the same-cluster conclusion for the boundary pair
29.999 minutes apart (1799940 ms). -/
theorem c9_threshold_boundary_witness :
    (({ rep := 0, members := [((0 : ℤ), "a"), ((60000 : ℤ), "b")] } : DateCluster)
        ∈ (sortByTime (List.zip [(0 : ℤ), 60000] ["a", "b"])).foldl groupStep []
      ∧ dt_diff_in_mins (0 : ℤ) 60000 < margin)
    ∧ (dt_diff_in_mins (0 : ℤ) 1799940 < margin
      ∧ (group_files_by_date [0, 1799940] ["a", "b"]).length = 1
      ∧ ∀ e ∈ group_files_by_date [0, 1799940] ["a", "b"], "a" ∈ e.fnames ∧ "b" ∈ e.fnames) :=
  ⟨⟨by decide,
    c9_threshold_boundary.1 [0, 60000] ["a", "b"]
      { rep := 0, members := [(0, "a"), (60000, "b")] } (by decide)
      (0, "a") (by decide) (60000, "b") (by decide)⟩,
   ⟨by decide,
    (c9_threshold_boundary.2.2.2 0 1799940 "a" "b" (by decide)).1,
    (c9_threshold_boundary.2.2.2 0 1799940 "a" "b" (by decide)).2⟩⟩

/-- C10: for every saved offsets record with distinct integer column and row
offsets, loading it back yields a crop offset whose row0 equals the stored
col_offset and differs from the stored row_offset: both col0 and row0 are
populated from col_offset, so the save and load composition does not round
trip the row offset. -/
theorem c10_row_offset_not_roundtripped (P : List (List ℚ)) (off : CropOffsetQ)
    (h : pyInt off.col0 ≠ pyInt off.row0) :
    ((load_offsets_from_dir (save_projection_matrices [P] [off])).headD default).row0
        = ((pyInt off.col0 : ℤ) : ℚ)
    ∧ ((load_offsets_from_dir (save_projection_matrices [P] [off])).headD default).row0
        ≠ ((pyInt off.row0 : ℤ) : ℚ) := by
  have h1 : load_offsets_from_dir (save_projection_matrices [P] [off])
      = [{ col0 := (pyInt off.col0 : ℚ), row0 := (pyInt off.col0 : ℚ),
           width := (pyInt off.width : ℚ), height := (pyInt off.height : ℚ) }] := rfl
  rw [h1]
  constructor
  · rfl
  · intro heq
    rw [List.headD_cons] at heq
    dsimp only at heq
    apply h
    exact_mod_cast heq

/-- C10, witness at a concrete offset with col0 = 0 and row0 = 1. -/
theorem c10_row_offset_not_roundtripped_witness :
    pyInt off10.col0 ≠ pyInt off10.row0
    ∧ (((load_offsets_from_dir (save_projection_matrices [[[1, 0]]] [off10])).headD
          default).row0 = ((pyInt off10.col0 : ℤ) : ℚ)
      ∧ ((load_offsets_from_dir (save_projection_matrices [[[1, 0]]] [off10])).headD
          default).row0 ≠ ((pyInt off10.row0 : ℤ) : ℚ)) :=
  ⟨by simp [off10, pyInt],
   c10_row_offset_not_roundtripped [[1, 0]] off10 (by simp [off10, pyInt])⟩
